import Mathlib

/-!
Verification of the resumable batch transcription engine: a shallow
embedding of the progress tracker (progress.py), the download retry loop
(downloader.py) and the orchestrator (cli.py), together with theorems
settling the specification claims about them.
-/

namespace TTEngine

/-- Character-list helper for the Python substring test: does `l` start
with `pat`. -/
def startsWithL : List Char → List Char → Bool
  | _, [] => true
  | [], _ :: _ => false
  | a :: as, b :: bs => a == b && startsWithL as bs

/-- Does `pat` occur as a contiguous run inside `l`. -/
def hasSubL : List Char → List Char → Bool
  | [], pat => pat.isEmpty
  | a :: rest, pat => startsWithL (a :: rest) pat || hasSubL rest pat

/-- Python `pat in s` substring containment on strings. -/
def containsSub (s pat : String) : Bool :=
  hasSubL s.data pat.data

/-- Outcome of one download attempt inside `TikTokDownloader.download_audio`:
the `yt_dlp` call succeeds and the output file exists, succeeds without the
file, raises `yt_dlp.utils.DownloadError`, or raises a generic exception. -/
inductive DLOutcome where
  | okCreated
  | okMissing
  | dlErr (msg : String)
  | otherErr (msg : String)
deriving DecidableEq

/-- Observable behaviour of one call to `download_audio`: how many attempts
were executed, the delays slept between attempts in order, and the returned
`(audio_path, error_message)` pair. -/
structure DLRun where
  attempts : Nat
  sleeps : List Nat
  audio_path : Option String
  error : Option String
deriving DecidableEq

/-- The terminal-error classification in `download_audio`:
`"Private video" in error_msg or "Video unavailable" in error_msg`. -/
def terminalMsg (msg : String) : Bool :=
  containsSub msg "Private video" || containsSub msg "Video unavailable"

/-- An attempt outcome that the retry loop treats as a retryable failure:
a `DownloadError` not classified terminal, or any generic exception. -/
def retryableFail : DLOutcome → Bool
  | .dlErr m => !terminalMsg m
  | .otherErr _ => true
  | _ => false

/-- The retry loop of `TikTokDownloader.download_audio`, embedded with an
attempt oracle `att` giving the outcome of the attempt with 0-based index
`k`, and explicit fuel (the loop runs `k` from 0 while `k < max_retries`,
so fuel `max_retries` suffices). -/
def dlLoop (att : Nat → DLOutcome) (output_path : String) (max_retries : Nat) :
    Nat → Nat → DLRun
  | 0, _ => ⟨0, [], none, some "Max retries exceeded"⟩
  | fuel + 1, k =>
    if k < max_retries then
      match att k with
      | .okCreated => ⟨1, [], some output_path, none⟩
      | .okMissing => ⟨1, [], none, some "Audio file not created"⟩
      | .dlErr msg =>
        if terminalMsg msg then
          ⟨1, [], none, some "Video is private or unavailable"⟩
        else if k < max_retries - 1 then
          let rest := dlLoop att output_path max_retries fuel (k + 1)
          ⟨rest.attempts + 1, 2 ^ k :: rest.sleeps, rest.audio_path, rest.error⟩
        else
          ⟨1, [], none, some ("Download failed: " ++ msg)⟩
      | .otherErr msg =>
        if k < max_retries - 1 then
          let rest := dlLoop att output_path max_retries fuel (k + 1)
          ⟨rest.attempts + 1, 2 ^ k :: rest.sleeps, rest.audio_path, rest.error⟩
        else
          ⟨1, [], none, some ("Unexpected error: " ++ msg)⟩
    else ⟨0, [], none, some "Max retries exceeded"⟩

/-- `TikTokDownloader.download_audio`: run the retry loop from attempt 0. -/
def download_audio (att : Nat → DLOutcome) (output_path : String)
    (max_retries : Nat) : DLRun :=
  dlLoop att output_path max_retries max_retries 0

/-- The per-item result dictionary built by `TikTokTranscriber.process_url`;
`none` stands for a field left at its `{}` placeholder or absent. -/
structure ItemResult where
  url : String
  status : String
  metadata : Option String
  transcript : Option String
  error : Option String
deriving DecidableEq

/-- Events of the per-item pipeline, recorded in invocation order:
metadata extraction, audio download, transcription, audio-file cleanup. -/
inductive Ev where
  | metaFetch
  | download
  | transcribeRun
  | cleanup
deriving DecidableEq

/-- `TikTokTranscriber.process_url`, embedded with stage oracles: `meta`
models `metadata_extractor.extract` (error key present or payload), `dl`
models `downloader.download_audio` returning `(audio_path, error)`, and
`tr` models `transcriber.transcribe`. Returns the result together with the
trace of stage invocations actually performed. -/
def process_url (meta : String → Except String String)
    (dl : String → Option String × Option String)
    (tr : String → Except String String)
    (url : String) : ItemResult × List Ev :=
  match meta url with
  | .error e => (⟨url, "failed", none, none, some e⟩, [.metaFetch])
  | .ok m =>
    match dl url with
    | (_, some e) => (⟨url, "failed", some m, none, some e⟩, [.metaFetch, .download])
    | (audio_path, none) =>
      match tr (audio_path.getD "") with
      | .error e =>
        (⟨url, "failed", some m, none, some e⟩,
          [.metaFetch, .download, .transcribeRun, .cleanup])
      | .ok t =>
        (⟨url, "success", some m, some t, none⟩,
          [.metaFetch, .download, .transcribeRun, .cleanup])

/-- The in-memory fields of `ProgressTracker`: the processed-URL set, the
append-only result log, and the failed-URL dictionary (association list in
insertion order, as a Python dict). -/
structure ProgressState where
  processed_urls : Finset String
  results : List ItemResult
  failed_urls : List (String × String)
deriving DecidableEq

/-- The fresh tracker state created by `ProgressTracker.__init__`. -/
def emptyState : ProgressState := ⟨∅, [], []⟩

/-- Python dict assignment `d[k] = v`: overwrite in place if the key
exists, otherwise append. -/
def dictInsert (d : List (String × String)) (k v : String) :
    List (String × String) :=
  if d.any (fun p => p.1 == k) then
    d.map (fun p => if p.1 == k then (k, v) else p)
  else d ++ [(k, v)]

/-- The in-memory mutation performed by `ProgressTracker.mark_success`
before it calls `save`. -/
def markSuccessState (st : ProgressState) (url : String)
    (result : ItemResult) : ProgressState :=
  { st with
    processed_urls := insert url st.processed_urls,
    results := st.results ++ [result] }

/-- The in-memory mutation performed by `ProgressTracker.mark_failed`
before it calls `save`. -/
def markFailedState (st : ProgressState) (url : String)
    (error : String) : ProgressState :=
  { st with
    processed_urls := insert url st.processed_urls,
    failed_urls := dictInsert st.failed_urls url error,
    results := st.results ++ [⟨url, "failed", none, none, some error⟩] }

/-- The serialized checkpoint document written by `ProgressTracker.save`:
a timestamp plus the tracker state (serialization modelled as injective). -/
structure CheckpointData where
  timestamp : String
  state : ProgressState
deriving DecidableEq

/-- A file system mapping paths to file contents. -/
abbrev FSModel := String → Option CheckpointData

/-- Writing a file at a path. -/
def fsWrite (fs : FSModel) (p : String) (c : CheckpointData) : FSModel :=
  fun q => if q = p then some c else fs q

/-- Removing a file at a path. -/
def fsRemove (fs : FSModel) (p : String) : FSModel :=
  fun q => if q = p then none else fs q

/-- Python `os.replace(src, dst)`: atomically move `src` over `dst`. -/
def fsReplace (fs : FSModel) (src dst : String) : FSModel :=
  match fs src with
  | none => fs
  | some c => fsWrite (fsRemove fs src) dst c

/-- The temporary path used by `save`: `self.progress_file + ".tmp"`. -/
def tmpPath (p : String) : String := p ++ ".tmp"

/-- `ProgressTracker.save` as a step sequence for crash modelling:
step 1 writes the serialized data to the temporary path, step 2 performs
the atomic `os.replace` over the canonical path; `steps` is the number of
steps completed before a crash or I/O error (2 = save completed). -/
def save_steps (fs : FSModel) (progress_file : String) (data : CheckpointData)
    (steps : Nat) : FSModel :=
  if steps = 0 then fs
  else if steps = 1 then fsWrite fs (tmpPath progress_file) data
  else
    fsReplace (fsWrite fs (tmpPath progress_file) data)
      (tmpPath progress_file) progress_file

/-- `ProgressTracker.mark_success` with its trailing `save` call: mutate
the in-memory state, then attempt the durable write; the Bool reports
whether `save` completed (false = an IOError escaped). -/
def mark_success_run (st : ProgressState) (url : String) (result : ItemResult)
    (fs : FSModel) (progress_file ts : String) (steps : Nat) :
    ProgressState × FSModel × Bool :=
  let st2 := markSuccessState st url result
  (st2, save_steps fs progress_file ⟨ts, st2⟩ steps, decide (2 ≤ steps))

/-- `ProgressTracker.mark_failed` with its trailing `save` call. -/
def mark_failed_run (st : ProgressState) (url : String) (error : String)
    (fs : FSModel) (progress_file ts : String) (steps : Nat) :
    ProgressState × FSModel × Bool :=
  let st2 := markFailedState st url error
  (st2, save_steps fs progress_file ⟨ts, st2⟩ steps, decide (2 ≤ steps))

/-- `ProgressTracker.get_pending_urls`: the input list filtered to URLs not
in the processed set, order and multiplicity preserved. -/
def get_pending_urls (st : ProgressState) (all_urls : List String) :
    List String :=
  all_urls.filter (fun url => decide (url ∉ st.processed_urls))

/-- One iteration body of the `process_batch` loop: on a success result
call `mark_success`, otherwise `mark_failed` with the result error (or
"Unknown error"). -/
def stepState (st : ProgressState) (url : String) (r : ItemResult) :
    ProgressState :=
  if r.status = "success" then markSuccessState st url r
  else markFailedState st url (r.error.getD "Unknown error")

/-- Output of the batch loop: final tracker state, the last state persisted
by a `mark` call this run (`none` if no item completed), and the list of
URLs actually handed to `process_url`, in order. -/
structure LoopOut where
  st : ProgressState
  saved : Option ProgressState
  ran : List String
deriving DecidableEq

/-- The `for url in urls_to_process` loop of `process_batch`: before each
item the interruption flag is consulted (the oracle `intr k` gives the flag
value at the boundary before the item with 0-based position `k`); each
completed item is marked and thereby persisted before the next begins. -/
def batchLoop (proc : String → ItemResult) (intr : Nat → Bool) :
    ProgressState → Option ProgressState → Nat → List String → LoopOut
  | st, sv, _, [] => ⟨st, sv, []⟩
  | st, sv, k, url :: rest =>
    if intr k then ⟨st, sv, []⟩
    else
      let st2 := stepState st url (proc url)
      let out := batchLoop proc intr st2 (some st2) (k + 1) rest
      ⟨out.st, out.saved, url :: out.ran⟩

/-- `TikTokTranscriber.process_batch`: if `resume` is true and the
checkpoint loads (`loaded = some st0`), start from the loaded state and
process only the pending URLs; otherwise start fresh and process the full
input list. -/
def process_batch (meta : String → Except String String)
    (dl : String → Option String × Option String)
    (tr : String → Except String String)
    (intr : Nat → Bool)
    (loaded : Option ProgressState) (resume : Bool)
    (urls : List String) : LoopOut :=
  let proc := fun url => (process_url meta dl tr url).1
  match resume, loaded with
  | true, some st0 => batchLoop proc intr st0 none 0 (get_pending_urls st0 urls)
  | _, _ => batchLoop proc intr emptyState none 0 urls

/-- Folding the loop body over a list of URLs, used to characterise runs of
`batchLoop` that are not interrupted. -/
def foldSt (proc : String → ItemResult) (st : ProgressState)
    (l : List String) : ProgressState :=
  l.foldl (fun s u => stepState s u (proc u)) st

/-- The ProgressState invariant claimed by the specification: failure keys
and success-outcome URLs appear in the processed set, and the processed set
has exactly one entry per recorded outcome. -/
def stateInv (st : ProgressState) : Prop :=
  (∀ p ∈ st.failed_urls, p.1 ∈ st.processed_urls) ∧
  (∀ r ∈ st.results, r.status = "success" → r.url ∈ st.processed_urls) ∧
  st.processed_urls.card = st.results.length

instance stateInvDecidable (st : ProgressState) : Decidable (stateInv st) := by
  unfold stateInv; infer_instance

/-- A sample success result for the URL "a", used in concrete instances. -/
def exResult : ItemResult := ⟨"a", "success", some "m", some "t", none⟩

/-- The empty file system. -/
def fsEmpty : FSModel := fun _ => none

/-- A metadata oracle that always succeeds. -/
def metaOk : String → Except String String := fun _ => Except.ok "m"

/-- A download oracle that always succeeds. -/
def dlOk : String → Option String × Option String := fun _ => (some "a.mp3", none)

/-- A transcription oracle that always succeeds. -/
def trOk : String → Except String String := fun _ => Except.ok "t"

/-- An interruption oracle that is set exactly at the boundary before the
second item. -/
def intrAt1 : Nat → Bool := fun k => decide (k = 1)

theorem tmpPath_ne (p : String) : tmpPath p ≠ p := by
  intro h
  have hl : (p ++ ".tmp").length = p.length := congrArg String.length h
  rw [String.length_append] at hl
  have h4 : (".tmp" : String).length = 4 := rfl
  omega

theorem fsWrite_self (fs : FSModel) (p : String) (c : CheckpointData) :
    fsWrite fs p c p = some c := by
  simp [fsWrite]

theorem fsWrite_other (fs : FSModel) (p q : String) (c : CheckpointData)
    (h : q ≠ p) : fsWrite fs p c q = fs q := by
  simp [fsWrite, h]

theorem fsRemove_other (fs : FSModel) (p q : String) (h : q ≠ p) :
    fsRemove fs p q = fs q := by
  simp [fsRemove, h]

theorem save_steps_complete (fs : FSModel) (progress_file : String)
    (data : CheckpointData) :
    save_steps fs progress_file data 2 progress_file = some data := by
  have hne : progress_file ≠ tmpPath progress_file :=
    Ne.symm (tmpPath_ne progress_file)
  simp only [save_steps]
  norm_num
  rw [fsReplace, fsWrite_self]
  exact fsWrite_self _ _ _

/-- C2: the checkpoint write is crash-atomic. If the save crashes before
any step (0 steps), after the temporary write but before the replace
(1 step), or if the temporary write itself was cut short (arbitrary
`partialData` landing at the temporary path), the canonical checkpoint
path holds exactly its prior content; once the atomic replace completes
(2 steps) it holds exactly the complete new data. -/
theorem checkpoint_save_atomic (fs : FSModel) (progress_file : String)
    (data partialData : CheckpointData) :
    save_steps fs progress_file data 0 progress_file = fs progress_file ∧
    save_steps fs progress_file data 1 progress_file = fs progress_file ∧
    fsWrite fs (tmpPath progress_file) partialData progress_file
      = fs progress_file ∧
    save_steps fs progress_file data 2 progress_file = some data := by
  have hne : progress_file ≠ tmpPath progress_file :=
    Ne.symm (tmpPath_ne progress_file)
  refine ⟨rfl, ?_, ?_, save_steps_complete fs progress_file data⟩
  · simp only [save_steps]
    norm_num
    exact fsWrite_other fs (tmpPath progress_file) progress_file data hne
  · exact fsWrite_other fs (tmpPath progress_file) progress_file partialData hne

/-- C10: marking an item mutates the in-memory ProgressState strictly
before attempting the durable write. If persisting fails (fewer than 2
save steps complete), the mark operation reports the error (Bool false),
yet the returned in-memory state already contains the outcome — the
identifier is in the processed set and the outcome is appended — while the
canonical checkpoint file is unchanged, so the outcome was never
persisted. -/
theorem mark_mutates_before_persist (st : ProgressState) (url : String)
    (result : ItemResult) (e : String) (fs : FSModel)
    (progress_file ts : String) (steps : Nat) (hfail : steps < 2) :
    (mark_success_run st url result fs progress_file ts steps).1
      = markSuccessState st url result ∧
    (mark_success_run st url result fs progress_file ts steps).1.processed_urls
      = insert url st.processed_urls ∧
    (mark_success_run st url result fs progress_file ts steps).1.results
      = st.results ++ [result] ∧
    (mark_success_run st url result fs progress_file ts steps).2.2 = false ∧
    (mark_success_run st url result fs progress_file ts steps).2.1 progress_file
      = fs progress_file ∧
    (mark_failed_run st url e fs progress_file ts steps).1
      = markFailedState st url e ∧
    (mark_failed_run st url e fs progress_file ts steps).2.2 = false ∧
    (mark_failed_run st url e fs progress_file ts steps).2.1 progress_file
      = fs progress_file := by
  have hne : progress_file ≠ tmpPath progress_file :=
    Ne.symm (tmpPath_ne progress_file)
  have hsave : ∀ d : CheckpointData,
      save_steps fs progress_file d steps progress_file = fs progress_file := by
    intro d
    interval_cases steps
    · rfl
    · simp only [save_steps]
      norm_num
      exact fsWrite_other fs (tmpPath progress_file) progress_file d hne
  have hdec : decide (2 ≤ steps) = false := by
    simp [Nat.not_le.mpr hfail]
  refine ⟨rfl, rfl, rfl, hdec, hsave _, rfl, hdec, hsave _⟩

theorem mark_mutates_before_persist_witness :
    (1 : Nat) < 2 ∧
    ((mark_success_run emptyState "a" exResult fsEmpty "f" "ts" 1).1
        = markSuccessState emptyState "a" exResult ∧
      (mark_success_run emptyState "a" exResult fsEmpty "f" "ts" 1).1.processed_urls
        = insert "a" emptyState.processed_urls ∧
      (mark_success_run emptyState "a" exResult fsEmpty "f" "ts" 1).1.results
        = emptyState.results ++ [exResult] ∧
      (mark_success_run emptyState "a" exResult fsEmpty "f" "ts" 1).2.2 = false ∧
      (mark_success_run emptyState "a" exResult fsEmpty "f" "ts" 1).2.1 "f"
        = fsEmpty "f" ∧
      (mark_failed_run emptyState "a" "err" fsEmpty "f" "ts" 1).1
        = markFailedState emptyState "a" "err" ∧
      (mark_failed_run emptyState "a" "err" fsEmpty "f" "ts" 1).2.2 = false ∧
      (mark_failed_run emptyState "a" "err" fsEmpty "f" "ts" 1).2.1 "f"
        = fsEmpty "f") :=
  ⟨by decide,
    mark_mutates_before_persist emptyState "a" exResult "err" fsEmpty "f" "ts" 1
      (by decide)⟩

/-- C3: the per-item pipeline runs metadata fetch, media fetch, then
transcription strictly in that order and is short-circuiting: the first
failing stage yields the final `failed` result carrying that stage reason
and the later stages are absent from the invocation trace; when all stages
succeed the result is `success` with both payloads. -/
theorem pipeline_short_circuit (meta : String → Except String String)
    (dl : String → Option String × Option String)
    (tr : String → Except String String) (url : String) :
    (∀ e, meta url = .error e →
      process_url meta dl tr url
        = (⟨url, "failed", none, none, some e⟩, [Ev.metaFetch])) ∧
    (∀ m ap e, meta url = .ok m → dl url = (ap, some e) →
      process_url meta dl tr url
        = (⟨url, "failed", some m, none, some e⟩, [Ev.metaFetch, Ev.download])) ∧
    (∀ m p e, meta url = .ok m → dl url = (some p, none) → tr p = .error e →
      process_url meta dl tr url
        = (⟨url, "failed", some m, none, some e⟩,
            [Ev.metaFetch, Ev.download, Ev.transcribeRun, Ev.cleanup])) ∧
    (∀ m p t, meta url = .ok m → dl url = (some p, none) → tr p = .ok t →
      process_url meta dl tr url
        = (⟨url, "success", some m, some t, none⟩,
            [Ev.metaFetch, Ev.download, Ev.transcribeRun, Ev.cleanup])) := by
  refine ⟨?_, ?_, ?_, ?_⟩
  · intro e h1
    simp [process_url, h1]
  · intro m ap e h1 h2
    simp [process_url, h1, h2]
  · intro m p e h1 h2 h3
    simp [process_url, h1, h2, h3]
  · intro m p t h1 h2 h3
    simp [process_url, h1, h2, h3]

theorem pipeline_short_circuit_witness :
    process_url (fun _ => Except.error "boom") dlOk trOk "u"
      = (⟨"u", "failed", none, none, some "boom"⟩, [Ev.metaFetch]) :=
  (pipeline_short_circuit (fun _ => Except.error "boom") dlOk trOk "u").1
    "boom" rfl

/-- C9: whenever the media-fetch stage succeeds for an item, the
invocation trace ends with the cleanup of the downloaded audio file, on
both exit paths — transcription failure and transcription success — so the
local resource is released before the item outcome is returned. -/
theorem cleanup_after_download (meta : String → Except String String)
    (dl : String → Option String × Option String)
    (tr : String → Except String String) (url m p : String)
    (h1 : meta url = .ok m) (h2 : dl url = (some p, none)) :
    (process_url meta dl tr url).2
      = [Ev.metaFetch, Ev.download, Ev.transcribeRun, Ev.cleanup] := by
  cases h3 : tr p <;> simp [process_url, h1, h2, h3]

theorem cleanup_after_download_witness :
    (process_url metaOk dlOk (fun _ => Except.error "whisper crash") "u").2
      = [Ev.metaFetch, Ev.download, Ev.transcribeRun, Ev.cleanup] :=
  cleanup_after_download metaOk dlOk (fun _ => Except.error "whisper crash")
    "u" "m" "a.mp3" rfl rfl

/-- C4 counterexample: the download loop does not treat every message
containing the substring "private" as terminal. The `DownloadError`
message "video is private" contains "private", yet with `max_retries = 3`
the operation is attempted 3 times, not once: only the exact phrases
"Private video" and "Video unavailable" are classified terminal. -/
theorem terminal_substring_cex :
    containsSub "video is private" "private" = true ∧
    terminalMsg "video is private" = false ∧
    (download_audio (fun _ => DLOutcome.dlErr "video is private") "p" 3).attempts
      = 3 := by
  refine ⟨by decide, by decide, by decide⟩

/-- C4 (amended): a first attempt failing with a `DownloadError` whose
message contains "Private video" or "Video unavailable" (the actual
terminal classification) is attempted exactly once: the loop returns the
terminal failure immediately with no sleeps and no further attempts,
regardless of how many attempts remain. -/
theorem terminal_attempted_once (att : Nat → DLOutcome)
    (output_path msg : String) (max_retries : Nat) (hmr : 1 ≤ max_retries)
    (h0 : att 0 = DLOutcome.dlErr msg) (hterm : terminalMsg msg = true) :
    download_audio att output_path max_retries
      = ⟨1, [], none, some "Video is private or unavailable"⟩ := by
  obtain ⟨n, rfl⟩ : ∃ n, max_retries = n + 1 := ⟨max_retries - 1, by omega⟩
  show dlLoop att output_path (n + 1) (n + 1) 0 = _
  simp [dlLoop, h0, hterm]

theorem terminal_attempted_once_witness :
    (1 : Nat) ≤ 5 ∧
    download_audio (fun _ => DLOutcome.dlErr "ERROR: Private video") "p" 5
      = ⟨1, [], none, some "Video is private or unavailable"⟩ :=
  ⟨by decide,
    terminal_attempted_once (fun _ => DLOutcome.dlErr "ERROR: Private video")
      "p" "ERROR: Private video" 5 (by decide) rfl (by decide)⟩

theorem dlLoop_retryable (att : Nat → DLOutcome) (output_path : String)
    (max_retries : Nat) :
    ∀ fuel k : Nat, k < max_retries → max_retries ≤ k + fuel →
      (∀ j, k ≤ j → j < max_retries → retryableFail (att j) = true) →
      (dlLoop att output_path max_retries fuel k).attempts = max_retries - k ∧
      (dlLoop att output_path max_retries fuel k).sleeps
        = (List.range' k (max_retries - 1 - k)).map (fun j => 2 ^ j) := by
  intro fuel
  induction fuel with
  | zero => intro k hk hle _; omega
  | succ fuel ih =>
    intro k hk hle hret
    have hatt := hret k le_rfl hk
    cases hcase : att k with
    | okCreated => rw [hcase] at hatt; simp [retryableFail] at hatt
    | okMissing => rw [hcase] at hatt; simp [retryableFail] at hatt
    | dlErr msg =>
      rw [hcase] at hatt
      have hterm : terminalMsg msg = false := by
        simpa [retryableFail] using hatt
      by_cases hsub : k < max_retries - 1
      · have ihk := ih (k + 1) (by omega) (by omega)
          (fun j hj hj2 => hret j (by omega) hj2)
        have hrange : max_retries - 1 - k = (max_retries - 1 - (k + 1)) + 1 := by
          omega
        simp only [dlLoop, if_pos hk, hcase, hterm, Bool.false_eq_true,
          if_false, if_pos hsub]
        refine ⟨by rw [ihk.1]; omega, ?_⟩
        rw [ihk.2, hrange, List.range'_succ]
        simp
      · have hke : k = max_retries - 1 := by omega
        simp only [dlLoop, if_pos hk, hcase, hterm, Bool.false_eq_true,
          if_false, if_neg hsub]
        refine ⟨by omega, ?_⟩
        have : max_retries - 1 - k = 0 := by omega
        simp [this]
    | otherErr msg =>
      by_cases hsub : k < max_retries - 1
      · have ihk := ih (k + 1) (by omega) (by omega)
          (fun j hj hj2 => hret j (by omega) hj2)
        have hrange : max_retries - 1 - k = (max_retries - 1 - (k + 1)) + 1 := by
          omega
        simp only [dlLoop, if_pos hk, hcase, if_pos hsub]
        refine ⟨by rw [ihk.1]; omega, ?_⟩
        rw [ihk.2, hrange, List.range'_succ]
        simp
      · simp only [dlLoop, if_pos hk, hcase, if_neg hsub]
        refine ⟨by omega, ?_⟩
        have : max_retries - 1 - k = 0 := by omega
        simp [this]

/-- C5: an operation that always fails with a retryable error is attempted
exactly `max_retries` times, the delays slept follow the schedule
`base_delay * 2^k` with base delay 1 for the 0-based retry index `k`
(so `max_retries - 1` sleeps in total), and the inter-attempt delays are
non-decreasing. -/
theorem backoff_schedule (att : Nat → DLOutcome) (output_path : String)
    (max_retries : Nat)
    (hall : ∀ k, k < max_retries → retryableFail (att k) = true) :
    (download_audio att output_path max_retries).attempts = max_retries ∧
    (download_audio att output_path max_retries).sleeps
      = (List.range (max_retries - 1)).map (fun k => 1 * 2 ^ k) ∧
    List.Pairwise (· ≤ ·) (download_audio att output_path max_retries).sleeps := by
  rcases Nat.eq_zero_or_pos max_retries with h0 | hpos
  · subst h0
    exact ⟨rfl, rfl, List.Pairwise.nil⟩
  · obtain ⟨ha, hs⟩ := dlLoop_retryable att output_path max_retries max_retries 0
      hpos (by omega) (fun j _ hj => hall j hj)
    have ha2 : (download_audio att output_path max_retries).attempts
        = max_retries := by
      rw [download_audio, ha]
      omega
    have hs2 : (download_audio att output_path max_retries).sleeps
        = (List.range (max_retries - 1)).map (fun k => 1 * 2 ^ k) := by
      rw [download_audio, hs, List.range_eq_range']
      simp
    refine ⟨ha2, hs2, ?_⟩
    rw [hs2, List.pairwise_map]
    exact (List.pairwise_lt_range _).imp
      (fun h => by
        have := Nat.pow_le_pow_right (by norm_num : 0 < 2) (Nat.le_of_lt h)
        simpa using this)

theorem backoff_schedule_witness :
    (download_audio (fun _ => DLOutcome.otherErr "timeout") "p" 4).attempts = 4 ∧
    (download_audio (fun _ => DLOutcome.otherErr "timeout") "p" 4).sleeps
      = (List.range 3).map (fun k => 1 * 2 ^ k) ∧
    List.Pairwise (· ≤ ·)
      (download_audio (fun _ => DLOutcome.otherErr "timeout") "p" 4).sleeps :=
  backoff_schedule (fun _ => DLOutcome.otherErr "timeout") "p" 4
    (fun _ _ => rfl)

/-- C6 (code-bug evidence): with `max_retries = 3` and every attempt
raising a retryable `DownloadError` "timeout", the loop exhausts all three
attempts but returns the failure reason "Download failed: timeout" — the
`return None, "Max retries exceeded"` after the loop is unreachable for a
positive attempt ceiling because the final attempt returns early from the
except handler — so the returned reason does not indicate "max retries
exceeded" in either casing. -/
theorem retries_exhausted_reason :
    download_audio (fun _ => DLOutcome.dlErr "timeout") "p" 3
      = ⟨3, [1, 2], none, some "Download failed: timeout"⟩ ∧
    containsSub "Download failed: timeout" "Max retries exceeded" = false ∧
    containsSub "Download failed: timeout" "max retries exceeded" = false := by
  refine ⟨rfl, by decide, by decide⟩

theorem stepState_results (st : ProgressState) (url : String) (r : ItemResult) :
    ∃ x, (stepState st url r).results = st.results ++ [x] := by
  unfold stepState markSuccessState markFailedState
  split
  · exact ⟨r, rfl⟩
  · exact ⟨_, rfl⟩

theorem stepState_processed (st : ProgressState) (url : String) (r : ItemResult) :
    (stepState st url r).processed_urls = insert url st.processed_urls := by
  unfold stepState markSuccessState markFailedState
  split <;> rfl

theorem foldSt_results_length (proc : String → ItemResult) :
    ∀ (l : List String) (st : ProgressState),
      (foldSt proc st l).results.length = st.results.length + l.length := by
  intro l
  induction l with
  | nil => intro st; simp [foldSt]
  | cons u rest ih =>
    intro st
    have hstep : foldSt proc st (u :: rest)
        = foldSt proc (stepState st u (proc u)) rest := rfl
    obtain ⟨x, hx⟩ := stepState_results st u (proc u)
    rw [hstep, ih, hx]
    simp
    omega

theorem foldSt_processed (proc : String → ItemResult) :
    ∀ (l : List String) (st : ProgressState),
      (foldSt proc st l).processed_urls = st.processed_urls ∪ l.toFinset := by
  intro l
  induction l with
  | nil => intro st; simp [foldSt]
  | cons u rest ih =>
    intro st
    have hstep : foldSt proc st (u :: rest)
        = foldSt proc (stepState st u (proc u)) rest := rfl
    rw [hstep, ih, stepState_processed, List.toFinset_cons,
      Finset.insert_union, Finset.union_insert]

theorem batchLoop_cons (proc : String → ItemResult) (intr : Nat → Bool)
    (st : ProgressState) (sv : Option ProgressState) (k : Nat) (u : String)
    (rest : List String) (h0 : intr k = false) :
    batchLoop proc intr st sv k (u :: rest)
      = ⟨(batchLoop proc intr (stepState st u (proc u))
            (some (stepState st u (proc u))) (k + 1) rest).st,
         (batchLoop proc intr (stepState st u (proc u))
            (some (stepState st u (proc u))) (k + 1) rest).saved,
         u :: (batchLoop proc intr (stepState st u (proc u))
            (some (stepState st u (proc u))) (k + 1) rest).ran⟩ := by
  simp [batchLoop, h0]

theorem batchLoop_no_intr (proc : String → ItemResult) (intr : Nat → Bool) :
    ∀ (l : List String) (st : ProgressState) (sv : Option ProgressState) (k : Nat),
      (∀ j, j < l.length → intr (k + j) = false) →
      batchLoop proc intr st sv k l
        = ⟨foldSt proc st l, if l.isEmpty then sv else some (foldSt proc st l), l⟩ := by
  intro l
  induction l with
  | nil => intro st sv k _; rfl
  | cons u rest ih =>
    intro st sv k h
    have h0 : intr k = false := by simpa using h 0 (by simp)
    have hrest : ∀ j, j < rest.length → intr (k + 1 + j) = false := by
      intro j hj
      have hx := h (j + 1) (by simp; omega)
      rw [show k + 1 + j = k + (j + 1) by omega]
      exact hx
    have hih := ih (stepState st u (proc u)) (some (stepState st u (proc u)))
      (k + 1) hrest
    have hfold : foldSt proc st (u :: rest)
        = foldSt proc (stepState st u (proc u)) rest := rfl
    rw [batchLoop_cons proc intr st sv k u rest h0, hih]
    cases rest with
    | nil => simp [hfold, foldSt]
    | cons v vs => simp [hfold]

theorem batchLoop_stop (proc : String → ItemResult) (intr : Nat → Bool) :
    ∀ (n : Nat) (l : List String) (st : ProgressState) (sv : Option ProgressState)
      (k : Nat),
      (∀ j, j < n → intr (k + j) = false) → intr (k + n) = true →
      batchLoop proc intr st sv k l = batchLoop proc intr st sv k (l.take n) := by
  intro n
  induction n with
  | zero =>
    intro l st sv k _ htrue
    cases l with
    | nil => rfl
    | cons u rest =>
      have h : intr k = true := by simpa using htrue
      simp [batchLoop, h]
  | succ n ih =>
    intro l st sv k hfalse htrue
    cases l with
    | nil => rfl
    | cons u rest =>
      have h0 : intr k = false := by simpa using hfalse 0 (Nat.succ_pos n)
      have hrest : ∀ j, j < n → intr (k + 1 + j) = false := by
        intro j hj
        have hx := hfalse (j + 1) (by omega)
        rw [show k + 1 + j = k + (j + 1) by omega]
        exact hx
      have htrue2 : intr (k + 1 + n) = true := by
        rw [show k + 1 + n = k + (n + 1) by omega]
        exact htrue
      have hih := ih rest (stepState st u (proc u))
        (some (stepState st u (proc u))) (k + 1) hrest htrue2
      rw [List.take_succ_cons, batchLoop_cons proc intr st sv k u rest h0,
        batchLoop_cons proc intr st sv k u (rest.take n) h0, hih]

/-- C1 counterexample: duplicate occurrences of a not-yet-processed
identifier do not collapse to a single recorded outcome. Resuming from an
empty (successfully loaded) checkpoint with input ["a", "a"], both
occurrences are processed and two outcomes are recorded for the one
identifier, while the processed set holds a single entry. -/
theorem resume_duplicate_cex :
    (process_batch metaOk dlOk trOk (fun _ => false) (some emptyState) true
      ["a", "a"]).ran = ["a", "a"] ∧
    (process_batch metaOk dlOk trOk (fun _ => false) (some emptyState) true
      ["a", "a"]).st.results.length = 2 ∧
    (process_batch metaOk dlOk trOk (fun _ => false) (some emptyState) true
      ["a", "a"]).st.processed_urls.card = 1 := by
  refine ⟨by decide, by decide, by decide⟩

/-- C1 (amended): with `resume = true` and a successfully loaded
checkpoint, an uninterrupted batch run processes exactly the input
sequence minus the already-recorded processed-identifier set, in input
order (so duplicate occurrences of an already-recorded identifier collapse
to its single recorded outcome); each processed occurrence — including
each duplicate occurrence of a not-yet-processed identifier — appends its
own recorded outcome, and the processed set grows by exactly the set of
pending identifiers. -/
theorem resume_pending_selection (meta : String → Except String String)
    (dl : String → Option String × Option String)
    (tr : String → Except String String) (intr : Nat → Bool)
    (st0 : ProgressState) (urls : List String)
    (hni : ∀ k, intr k = false) :
    (process_batch meta dl tr intr (some st0) true urls).ran
      = urls.filter (fun u => decide (u ∉ st0.processed_urls)) ∧
    (process_batch meta dl tr intr (some st0) true urls).st.results.length
      = st0.results.length
        + (urls.filter (fun u => decide (u ∉ st0.processed_urls))).length ∧
    (process_batch meta dl tr intr (some st0) true urls).st.processed_urls
      = st0.processed_urls
        ∪ (urls.filter (fun u => decide (u ∉ st0.processed_urls))).toFinset := by
  have hrun : process_batch meta dl tr intr (some st0) true urls
      = batchLoop (fun url => (process_url meta dl tr url).1) intr st0 none 0
          (get_pending_urls st0 urls) := rfl
  rw [hrun, batchLoop_no_intr _ intr _ st0 none 0 (fun j _ => hni (0 + j))]
  have hpend : get_pending_urls st0 urls
      = urls.filter (fun u => decide (u ∉ st0.processed_urls)) := rfl
  exact ⟨hpend, by rw [foldSt_results_length, hpend],
    by rw [foldSt_processed, hpend]⟩

theorem resume_pending_selection_witness :
    (process_batch metaOk dlOk trOk (fun _ => false)
        (some (markSuccessState emptyState "a" exResult)) true
        ["a", "b", "a", "c"]).ran
      = ["a", "b", "a", "c"].filter
          (fun u => decide (u ∉ (markSuccessState emptyState "a" exResult).processed_urls)) ∧
    (process_batch metaOk dlOk trOk (fun _ => false)
        (some (markSuccessState emptyState "a" exResult)) true
        ["a", "b", "a", "c"]).st.results.length
      = (markSuccessState emptyState "a" exResult).results.length
        + (["a", "b", "a", "c"].filter
            (fun u => decide (u ∉ (markSuccessState emptyState "a" exResult).processed_urls))).length ∧
    (process_batch metaOk dlOk trOk (fun _ => false)
        (some (markSuccessState emptyState "a" exResult)) true
        ["a", "b", "a", "c"]).st.processed_urls
      = (markSuccessState emptyState "a" exResult).processed_urls
        ∪ (["a", "b", "a", "c"].filter
            (fun u => decide (u ∉ (markSuccessState emptyState "a" exResult).processed_urls))).toFinset :=
  resume_pending_selection metaOk dlOk trOk (fun _ => false)
    (markSuccessState emptyState "a" exResult) ["a", "b", "a", "c"]
    (fun _ => rfl)

/-- C8 counterexample: the item about to be processed when the
interruption flag is found set does not always remain pending. Resuming
from an empty loaded checkpoint with input ["a", "a"], the pending list
keeps both occurrences; with the flag set exactly at the boundary before
the second item, the loop stops having run only the first occurrence —
yet the item about to be processed, the second "a", is already in the
processed set, so it is not pending. -/
theorem interrupt_pending_cex :
    intrAt1 0 = false ∧ intrAt1 1 = true ∧
    get_pending_urls emptyState ["a", "a"] = ["a", "a"] ∧
    (process_batch metaOk dlOk trOk intrAt1 (some emptyState) true
      ["a", "a"]).ran = ["a"] ∧
    "a" ∈ (process_batch metaOk dlOk trOk intrAt1 (some emptyState) true
      ["a", "a"]).st.processed_urls := by
  refine ⟨by decide, by decide, by decide, by decide, by decide⟩

/-- C8 (amended): the interruption flag is consulted at the boundary
before each item only. If the flag is first set at the boundary before
pending item `n`, the loop stops there: exactly the first `n` pending
items were processed, every outcome accumulated by this run is already
durable (for `0 < n` the last persisted snapshot equals the final state),
and the item about to be processed remains pending — it is not in the
processed set — provided it is not a duplicate occurrence of an
identifier processed earlier in this run; a duplicate pending occurrence
is already in the processed set when the flag is checked. -/
theorem interrupt_boundary (meta : String → Except String String)
    (dl : String → Option String × Option String)
    (tr : String → Except String String) (intr : Nat → Bool)
    (st0 : ProgressState) (urls : List String) (n : Nat)
    (hfalse : ∀ j, j < n → intr j = false) (htrue : intr n = true)
    (hn : n < (get_pending_urls st0 urls).length) :
    (process_batch meta dl tr intr (some st0) true urls).ran
      = (get_pending_urls st0 urls).take n ∧
    (0 < n →
      (process_batch meta dl tr intr (some st0) true urls).saved
        = some (process_batch meta dl tr intr (some st0) true urls).st) ∧
    ((get_pending_urls st0 urls).get ⟨n, hn⟩
        ∉ ((get_pending_urls st0 urls).take n).toFinset →
      (get_pending_urls st0 urls).get ⟨n, hn⟩
        ∉ (process_batch meta dl tr intr (some st0) true urls).st.processed_urls) := by
  have hrun : process_batch meta dl tr intr (some st0) true urls
      = batchLoop (fun url => (process_url meta dl tr url).1) intr st0 none 0
          (get_pending_urls st0 urls) := rfl
  have hstop := batchLoop_stop (fun url => (process_url meta dl tr url).1) intr n
    (get_pending_urls st0 urls) st0 none 0
    (fun j hj => by simpa using hfalse j hj) (by simpa using htrue)
  have htklen : ((get_pending_urls st0 urls).take n).length = n := by
    rw [List.length_take]
    omega
  have hni : ∀ j, j < ((get_pending_urls st0 urls).take n).length →
      intr (0 + j) = false := by
    intro j hj
    rw [htklen] at hj
    simpa using hfalse j hj
  have hnointr := batchLoop_no_intr (fun url => (process_url meta dl tr url).1)
    intr ((get_pending_urls st0 urls).take n) st0 none 0 hni
  rw [hrun, hstop, hnointr]
  have hemp : ∀ hpos : 0 < n, ((get_pending_urls st0 urls).take n).isEmpty = false := by
    intro hpos
    cases htk : (get_pending_urls st0 urls).take n with
    | nil =>
      have := congrArg List.length htk
      rw [htklen] at this
      simp at this
      omega
    | cons a l => rfl
  refine ⟨rfl, ?_, ?_⟩
  · intro hpos
    simp [hemp hpos]
  · intro hnot
    rw [foldSt_processed]
    intro hmem
    rcases Finset.mem_union.mp hmem with hmem0 | hmemtk
    · have hin : (get_pending_urls st0 urls).get ⟨n, hn⟩ ∈ get_pending_urls st0 urls :=
        List.get_mem _ _ _
      have hflt := List.of_mem_filter hin
      exact (of_decide_eq_true hflt) hmem0
    · exact hnot hmemtk

theorem interrupt_boundary_witness :
    (process_batch metaOk dlOk trOk intrAt1 (some emptyState) true
        ["a", "b", "c"]).ran
      = (get_pending_urls emptyState ["a", "b", "c"]).take 1 ∧
    (0 < 1 →
      (process_batch metaOk dlOk trOk intrAt1 (some emptyState) true
          ["a", "b", "c"]).saved
        = some (process_batch metaOk dlOk trOk intrAt1 (some emptyState) true
            ["a", "b", "c"]).st) ∧
    ((get_pending_urls emptyState ["a", "b", "c"]).get ⟨1, by decide⟩
        ∉ ((get_pending_urls emptyState ["a", "b", "c"]).take 1).toFinset →
      (get_pending_urls emptyState ["a", "b", "c"]).get ⟨1, by decide⟩
        ∉ (process_batch metaOk dlOk trOk intrAt1 (some emptyState) true
            ["a", "b", "c"]).st.processed_urls) :=
  interrupt_boundary metaOk dlOk trOk intrAt1 emptyState ["a", "b", "c"] 1
    (fun j hj => by
      have hj0 : j = 0 := by omega
      subst hj0
      rfl)
    rfl (by decide)

/-- C7 counterexample: a mark operation that repeats an already-processed
identifier does not preserve the invariant. After marking "a" succeeded
once the invariant holds; marking "a" succeeded again leaves the processed
set at one entry but records a second outcome, so the processed set size
no longer equals the number of recorded outcomes. -/
theorem mark_repeat_cex :
    stateInv (markSuccessState emptyState "a" exResult) ∧
    ¬ stateInv
        (markSuccessState (markSuccessState emptyState "a" exResult) "a" exResult) ∧
    (markSuccessState (markSuccessState emptyState "a" exResult) "a"
        exResult).processed_urls.card = 1 ∧
    (markSuccessState (markSuccessState emptyState "a" exResult) "a"
        exResult).results.length = 2 := by
  refine ⟨by decide, by decide, by decide, by decide⟩

theorem dictInsert_mem (d : List (String × String)) (k v : String) :
    ∀ p ∈ dictInsert d k v, p ∈ d ∨ p.1 = k := by
  intro p hp
  unfold dictInsert at hp
  split at hp
  · rcases List.mem_map.mp hp with ⟨q, hq, hpq⟩
    by_cases hqk : (q.1 == k) = true
    · right
      rw [← hpq]
      simp [hqk]
    · left
      rw [← hpq]
      simp only [hqk, if_false]
      exact hq
  · rcases List.mem_append.mp hp with h | h
    · exact Or.inl h
    · right
      simp only [List.mem_singleton] at h
      rw [h]

/-- C7 (amended): marking an identifier succeeded or failed preserves the
ProgressState invariant provided the identifier is not already in the
processed set (and, for a success mark, the recorded outcome carries that
identifier): failure keys and success-outcome URLs stay inside the
processed set and the processed set size stays equal to the outcome count.
A mark repeating an already-processed identifier breaks the size equality,
so the unconditional form of the claim fails. -/
theorem mark_preserves_inv (st : ProgressState) (url : String) (r : ItemResult)
    (e : String) (hinv : stateInv st) (hfresh : url ∉ st.processed_urls)
    (hurl : r.url = url) :
    stateInv (markSuccessState st url r) ∧ stateInv (markFailedState st url e) := by
  obtain ⟨h1, h2, h3⟩ := hinv
  constructor
  · refine ⟨?_, ?_, ?_⟩
    · intro p hp
      exact Finset.mem_insert_of_mem (h1 p hp)
    · intro x hx hxs
      rcases List.mem_append.mp hx with hx | hx
      · exact Finset.mem_insert_of_mem (h2 x hx hxs)
      · simp only [List.mem_singleton] at hx
        subst hx
        rw [hurl]
        exact Finset.mem_insert_self _ _
    · show (insert url st.processed_urls).card = (st.results ++ [r]).length
      rw [Finset.card_insert_of_not_mem hfresh, List.length_append, h3]
      rfl
  · refine ⟨?_, ?_, ?_⟩
    · intro p hp
      rcases dictInsert_mem st.failed_urls url e p hp with h | h
      · exact Finset.mem_insert_of_mem (h1 p h)
      · rw [h]
        exact Finset.mem_insert_self _ _
    · intro x hx hxs
      rcases List.mem_append.mp hx with hx | hx
      · exact Finset.mem_insert_of_mem (h2 x hx hxs)
      · simp only [List.mem_singleton] at hx
        subst hx
        simp at hxs
    · simp only [markFailedState, List.length_append,
        Finset.card_insert_of_not_mem hfresh, h3]
      rfl

theorem mark_preserves_inv_witness :
    stateInv (markSuccessState emptyState "a" exResult) ∧
    stateInv (markFailedState emptyState "a" "err") :=
  mark_preserves_inv emptyState "a" exResult "err" (by decide) (by decide) rfl

end TTEngine
